import Mathlib

/-!
Verification of the `topic-rnn` repository against its specification.

Shallow embedding of:
- `src/dataset_reader/conflict_dataset_reader.py` (class `ConflictDatasetReader`)
- `src/topic_rnn_rc/models/topic_rnn.py` (classes `TopicRNN` and `G`)

Torch tensors are modelled as lists of real numbers (1-D), lists of lists
(2-D), and lists of lists of lists (3-D).  Python `range` and list slices
are modelled on lists.  Exceptions raised by Python are modelled with
`Except`.  Randomness (`random.shuffle`, `MultivariateNormal.rsample`) is
modelled by threading the drawn value (a permutation, a noise vector) as an
explicit argument.
-/

namespace TopicRnn

/-- Python `range(start, stop, step)` restricted to natural bounds: the
arithmetic progression from `start` with the given positive `step`, strictly
below `stop`.  (A Python call with `stop < start` yields the empty range;
truncated subtraction gives the same here.) -/
def pyRange (start stop step : Nat) : List Nat :=
  List.range' start ((stop - start + step - 1) / step) step

/-- Python slice `xs[i : i + n]`. -/
def pySlice (xs : List α) (i n : Nat) : List α :=
  (xs.drop i).take n

/-! ### Dataset reader: `src/dataset_reader/conflict_dataset_reader.py` -/

/-- A training-example dict built by `ConflictDatasetReader._read`
(lines 52-58): keys `"id"`, `"input"`, `"target"`, `"index"`.  The two
extra keys `"title"` and `"term_frequency"` are only assigned later, by
`data_loader` (lines 107-110); a dict without them is modelled by `none`.
The payload type `τ` stands for the term-frequency tensor. -/
structure Ex (τ : Type) where
  id : Nat
  input : List Nat
  target : List Nat
  index : Nat
  title : Option String := none
  term_frequency : Option τ := none
  deriving Repr, DecidableEq

/-- The sliding-window loop of `ConflictDatasetReader._read` (lines 51-59):
`for i in range(len(encoding) - self.bptt_limit - 1)` append the dict with
`input = encoding[i : i + bptt_limit]` and
`target = encoding[i + 1 : i + 1 + bptt_limit]`. -/
def readWindows (τ : Type) (id : Nat) (encoding : List Nat) (bptt_limit : Nat) :
    List (Ex τ) :=
  (List.range (encoding.length - bptt_limit - 1)).map fun i =>
    { id := id
      input := pySlice encoding i bptt_limit
      target := pySlice encoding (i + 1) bptt_limit
      index := i }

/-- The batch-slicing performed by `ConflictDatasetReader.data_loader`
(lines 97-111) on this epoch's ordering of `self.examples` (the list is
copied and shuffled first when `shuffle=True`; the ordering is taken here
as the input list):
`rounded_by_batch = (len(examples) // batch_size) * batch_size` and the
yielded batches are `examples[i : i + batch_size]` for
`i in range(0, rounded_by_batch - batch_size, batch_size)`. -/
def dataLoaderBatches (τ : Type) (examples : List (Ex τ)) (batch_size : Nat) :
    List (List (Ex τ)) :=
  let rounded_by_batch := (examples.length / batch_size) * batch_size
  (pyRange 0 (rounded_by_batch - batch_size) batch_size).map fun i =>
    pySlice examples i batch_size

/-! ### Dataset reader: `_read` / `load` error behaviour and `data_loader`
mutation -/

/-- Python exceptions relevant to this code base. -/
inductive PyErr
  | keyError        -- dict lookup on a missing key
  | jsonError       -- `ujson.load` failure on an unparseable document
  | ambiguousBool   -- `bool()` of a torch tensor with several elements
  | shapeError      -- RuntimeError from a tensor-shape mismatch (`view`, `mm`)
  deriving Repr, DecidableEq

/-- A parsed document dict.  The outer `Option` of each field models key
presence (`none` = the key is absent, so `d["..."]` raises `KeyError`); the
inner `Option` models the Python value `None`. -/
structure RawDoc where
  title : Option (Option String)
  text : Option (Option String)

/-- Python `d[key]` on an optional-key dict field. -/
def dictGet : Option α → Except PyErr α
  | none => Except.error PyErr.keyError
  | some v => Except.ok v

/-- The reader state that `_read` and `load` update: `id_to_title`,
`id_to_term_frequency` (as assoc lists, most recent first) and the
accumulated `examples`. -/
structure ReaderState (τ : Type) where
  id_to_title : List (Nat × String)
  id_to_term_frequency : List (Nat × τ)
  examples : List (Ex τ)
  deriving Repr, DecidableEq

/-- `ConflictDatasetReader._read` (lines 30-59).  The `doc` argument is
`none` when `ujson.load` cannot parse the file (the parse error then
propagates); with a parsed dict, the `"title"` and `"text"` lookups raise
`KeyError` when the key is absent.  When both keys are present and
`title is None or encoding is None` the empty list is returned with the
reader state untouched (lines 44-45); otherwise both id maps are updated and
the sliding windows are returned.  `encode` models the external
`Vocabulary.encode_from_text` and `termFreq` models
`Vocabulary.compute_term_frequencies`, both from `dataset_reader/data.py`
which is not part of this repository's sources. -/
def readDoc (τ : Type) (encode : Option String → Option (List Nat))
    (termFreq : List Nat → τ) (bptt_limit : Nat)
    (doc : Option RawDoc) (id : Nat) (st : ReaderState τ) :
    Except PyErr (List (Ex τ) × ReaderState τ) :=
  match doc with
  | none => Except.error PyErr.jsonError
  | some d =>
    match dictGet d.title with
    | Except.error e => Except.error e
    | Except.ok title =>
      match dictGet d.text with
      | Except.error e => Except.error e
      | Except.ok text =>
        match title, encode text with
        | none, _ => Except.ok ([], st)
        | some _, none => Except.ok ([], st)
        | some t, some enc =>
          let st1 := { st with id_to_title := (id, t) :: st.id_to_title }
          let st2 := { st1 with
            id_to_term_frequency := (id, termFreq enc) :: st1.id_to_term_frequency }
          Except.ok (readWindows τ id enc bptt_limit, st2)

/-- The loop of `ConflictDatasetReader.load` (lines 75-80) from document
index `i` on: `self.examples += self._read(document, i)`; any exception
raised by `_read` propagates out of `load`. -/
def loadFrom (τ : Type) (encode : Option String → Option (List Nat))
    (termFreq : List Nat → τ) (bptt_limit : Nat) :
    List (Option RawDoc) → Nat → ReaderState τ → Except PyErr (ReaderState τ)
  | [], _, st => Except.ok st
  | d :: rest, i, st =>
    match readDoc τ encode termFreq bptt_limit d i st with
    | Except.error e => Except.error e
    | Except.ok (exs, st1) =>
      loadFrom τ encode termFreq bptt_limit rest (i + 1)
        { st1 with examples := st1.examples ++ exs }

/-- The per-example assignment inside `data_loader` (lines 107-110):
`ex["title"] = self.id_to_title[ex["id"]]` and
`ex["term_frequency"] = self.id_to_term_frequency[ex["id"]]`.  The two maps
are modelled as total functions: `_read` inserts the id of every document
that contributes examples into both maps before its examples exist. -/
def annotate (τ : Type) (titleM : Nat → String) (tfM : Nat → τ) (e : Ex τ) : Ex τ :=
  { e with title := some (titleM e.id), term_frequency := some (tfM e.id) }

/-- The batches of store positions visited in one epoch of `data_loader`:
`perm` is the epoch's ordering of the positions of `self.examples` (the
identity when `shuffle=False`, the shuffled copy of the position list
otherwise — `self.examples.copy()` copies only the list, the dict records
are shared), and the slicing is exactly that of `data_loader`
(lines 102-104). -/
def epochBatchPositions (perm : List Nat) (b : Nat) : List (List Nat) :=
  let rounded_by_batch := (perm.length / b) * b
  (pyRange 0 (rounded_by_batch - b) b).map fun i => pySlice perm i b

/-- The net effect of one full epoch of `data_loader` on the reader's
`examples` store: every example record appearing in a yielded batch is
mutated in place by the `annotate` assignment (the shuffled list holds
references to the same records, so the mutation lands in the store). -/
def runEpoch (τ : Type) (titleM : Nat → String) (tfM : Nat → τ)
    (store : List (Ex τ)) (perm : List Nat) (b : Nat) : List (Ex τ) :=
  ((epochBatchPositions perm b).flatten).foldl
    (fun st p => List.modify (annotate τ titleM tfM) p st) store

/-! ### The model: `src/topic_rnn_rc/models/topic_rnn.py`

Real-valued tensors are lists (1-D), lists of lists (2-D, row major) and
lists of lists of lists (3-D).  `Real.exp` models floating-point `exp`. -/

noncomputable section

/-- `torch.matmul` of two 1-D tensors (dot product). -/
def dot (xs ys : List ℝ) : ℝ := (List.zipWith (fun a c => a * c) xs ys).sum

/-- `torch.matmul` of a 2-D tensor with a 1-D tensor. -/
def matVec (m : List (List ℝ)) (v : List ℝ) : List ℝ := m.map fun row => dot row v

/-- Elementwise tensor addition. -/
def vecAdd (xs ys : List ℝ) : List ℝ := List.zipWith (fun a c => a + c) xs ys

/-- `torch.nn.Linear`: `x ↦ W x + bias`, one row of `W` per output unit. -/
def linear (W : List (List ℝ)) (bias x : List ℝ) : List ℝ := vecAdd (matVec W x) bias

/-- `torch.nn.ReLU`. -/
def reluVec (v : List ℝ) : List ℝ := v.map fun x => max x 0

/-- Softmax of a 1-D tensor (`torch.nn.functional.softmax(v, dim=-1)`). -/
def softmaxList (v : List ℝ) : List ℝ :=
  v.map fun x => Real.exp x / ((v.map Real.exp).sum)

/-- Row-major reshape `.view(K, H)` of a flat vector: row `k` is
`v[k * H : k * H + H]`. -/
def viewKH (K H : Nat) (v : List ℝ) : List (List ℝ) :=
  (List.range K).map fun k => pySlice v (k * H) H

/-- `nn.Softmax(dim=1)` applied to one `(topic_dim × hidden_size)` slice of
the `(batch, topic_dim, hidden_size)` view in `G.forward`: entry `(k, h)`
becomes `exp m[k][h] / Σ_k' exp m[k'][h]`, i.e. normalization along the
topic axis (dim 1), matching the source comment "Normalize along the topic
dimension". -/
def softmaxTopicAxis (m : List (List ℝ)) : List (List ℝ) :=
  m.map fun row => row.mapIdx fun h x =>
    Real.exp x / ((m.map fun r => Real.exp (r.getD h 0)).sum)

/-- The inference network `G` (lines 164-204): parameters of
`nn.Sequential(Linear(vc_dim, hidden_size * topic_dim), ReLU(),
Linear(hidden_size * topic_dim, hidden_size * topic_dim), ReLU())`. -/
structure GNet where
  vc_dim : Nat
  hidden_size : Nat
  topic_dim : Nat
  W1 : List (List ℝ)
  b1 : List ℝ
  W2 : List (List ℝ)
  b2 : List ℝ

/-- `G.__init__`'s `self.model` applied to one term-frequency vector:
two stacked affine transforms with a ReLU between and after them. -/
def GNet.model (g : GNet) (x : List ℝ) : List ℝ :=
  reluVec (linear g.W2 g.b2 (reluVec (linear g.W1 g.b1 x)))

/-- `G.forward` (lines 198-204): run the stack on every batch row, reshape
each result to `(topic_dim, hidden_size)` and apply `nn.Softmax(dim=1)`. -/
def GNet.forward (g : GNet) (term_frequencies : List (List ℝ)) :
    List (List (List ℝ)) :=
  term_frequencies.map fun tf =>
    softmaxTopicAxis (viewKH g.topic_dim g.hidden_size (g.model tf))

/-- A recurrent hidden state: a `(layers, batch, hidden_size)` tensor. -/
abbrev Hidden := List (List (List ℝ))

/-- The stored topic-proportion tensor `self.theta`, which changes rank over
the model's lifetime: `__init__` lines 47-49 store a **1-D** tensor of length
`topic_dim` (a normalized random-uniform draw), and `likelihood` line 153
replaces it with the **2-D** `(batch, topic_dim)` result of
`softmax(mu + exp(log_sigma) * epsilon, dim=-1)`. -/
inductive Theta
  | vec (v : List ℝ)
  | mat (m : List (List ℝ))

/-- The elements of the stored tensor in row-major order. -/
def Theta.flatten : Theta → List ℝ
  | Theta.vec v => v
  | Theta.mat m => m.flatten

/-- `theta.numel()`. -/
def Theta.numel (t : Theta) : Nat := t.flatten.length

/-- `self.theta.view(self.batch_size, -1)` (line 123): the row-major reshape
into `B` rows of `numel / B` entries; torch raises a shape RuntimeError when
the element count is not divisible by `B`. -/
def Theta.view (t : Theta) (B : Nat) : Except PyErr (List (List ℝ)) :=
  if t.numel % B = 0 then
    Except.ok ((List.range B).map fun i =>
      pySlice t.flatten (i * (t.numel / B)) (t.numel / B))
  else Except.error PyErr.shapeError

/-- The `TopicRNN` module (lines 8-161).  Learned tensors and configuration
are fields; `theta` is the stored topic-proportion state, a `Theta` because
its rank changes: the fresh value of `__init__` lines 47-49 is a 1-D tensor
of `topic_dim` entries, and every topics-enabled `likelihood` call with term
frequencies replaces it with a 2-D `(batch, topic_dim)` tensor (line 153).
`rnn` models the external `torch.nn.RNN` module (embedded sequence batch and
hidden state in, output sequence batch and updated hidden state out). -/
structure TopicRNNModel where
  vocab_size : Nat
  embedding_size : Nat
  hidden_size : Nat
  batch_size : Nat
  layers : Nat
  topic_dim : Nat
  stop_indices : List Nat
  use_topics : Bool
  theta : Theta
  beta : List (List ℝ)
  g : GNet
  w1 : List ℝ
  a1 : List ℝ
  w2 : List ℝ
  a2 : List ℝ
  embedding : List (List ℝ)
  rnn : List (List (List ℝ)) → Hidden → List (List (List ℝ)) × Hidden
  decoderW : List (List ℝ)
  decoderB : List ℝ

/-- A zero vector. -/
def zerosVec (n : Nat) : List ℝ := List.replicate n 0

/-- A zero matrix. -/
def zerosMat (r c : Nat) : List (List ℝ) := List.replicate r (zerosVec c)

/-- `TopicRNN.init_hidden` (lines 90-103), full-batch case: a zero tensor of
shape `(layers, batch_size, hidden_size)`. -/
def TopicRNNModel.init_hidden (M : TopicRNNModel) : Hidden :=
  List.replicate M.layers (zerosMat M.batch_size M.hidden_size)

/-- `nn.Embedding` lookup: replace every token id by its embedding row. -/
def embedLookup (E : List (List ℝ)) (toks : List Nat) : List (List ℝ) :=
  toks.map fun t => E.getD t []

/-- Lines 106-116 of `TopicRNN.forward`: embed the input batch, run the
recurrent module, and decode every intermediary hidden state to vocabulary
logits with `self.decoder`. -/
def decodedOf (M : TopicRNNModel) (input : List (List Nat)) (hidden : Hidden) :
    List (List (List ℝ)) × Hidden :=
  let embedded := input.map (embedLookup M.embedding)
  let r := M.rnn embedded hidden
  (r.1.map fun seq => seq.map fun h => linear M.decoderW M.decoderB h, r.2)

/-- The arithmetic of a 2-D matrix product: entry `(i, j)` is
`Σ_k A[i][k]*B[k][j]` (the column count read off `B`'s first row, as for a
rectangular tensor). -/
def matMul (A B : List (List ℝ)) : List (List ℝ) :=
  A.map fun row => (List.range ((B.headD []).length)).map fun j =>
    (List.zipWith (fun a br => a * br.getD j 0) row B).sum

/-- `torch.mm(A, B)`: raises a shape RuntimeError unless the inner
dimensions agree (every row of `A` has exactly `B.length` entries);
otherwise the 2-D matrix product. -/
def mmChecked (A B : List (List ℝ)) : Except PyErr (List (List ℝ)) :=
  if A.all fun row => row.length == B.length then Except.ok (matMul A B)
  else Except.error PyErr.shapeError

/-- Line 124, `topic_additions.t()[self.stop_indices] = 0`: zero every
column of `m` whose index is a stopword id. -/
def zeroStopCols (stop : List Nat) (m : List (List ℝ)) : List (List ℝ) :=
  m.map fun row => row.mapIdx fun j x => if j ∈ stop then 0 else x

/-- Lines 123-124: the per-batch-element additive topic bias
`torch.mm(self.theta.view(self.batch_size, -1), self.beta)` with the
stopword columns zeroed.  Both the `view` reshape and `torch.mm` can raise
shape errors — in particular on the fresh 1-D `theta` of `topic_dim`
entries with `batch_size > 1` — and the raised error propagates.  (On an
already-updated 2-D `(batch_size, topic_dim)` theta the `view` is the
identity reshape and `mm` succeeds when `topic_dim` matches `beta`.) -/
def TopicRNNModel.topicAdditions (M : TopicRNNModel) :
    Except PyErr (List (List ℝ)) :=
  (M.theta.view M.batch_size).bind fun tv =>
    (mmChecked tv M.beta).map fun ta => zeroStopCols M.stop_indices ta

/-- `TopicRNN.forward` (lines 105-128): decode, then — when `use_topics` —
add to every sequence position of batch element `b` the same bias vector
`topicAdditions[b]` (`unsqueeze(1).expand_as(decoded)` broadcast); a shape
error raised while building the topic bias propagates out of `forward`. -/
def TopicRNNModel.forward (M : TopicRNNModel) (input : List (List Nat))
    (hidden : Hidden) : Except PyErr (List (List (List ℝ)) × Hidden) :=
  let dec := decodedOf M input hidden
  if M.use_topics then
    M.topicAdditions.map fun topic_additions =>
      (List.zipWith (fun seq ta => seq.map fun row => vecAdd row ta)
        dec.1 topic_additions, dec.2)
  else Except.ok dec

/-- Line 141: `mu = mapped_term_frequencies.matmul(self.w1) + self.a1`,
a `(batch, topic_dim)` tensor. -/
def muOf (M : TopicRNNModel) (tf : List (List ℝ)) : List (List ℝ) :=
  (M.g.forward tf).map fun mk => vecAdd (mk.map fun row => dot row M.w1) M.a1

/-- Line 142: `log_sigma = mapped_term_frequencies.matmul(self.w2) + self.a2`. -/
def logSigmaOf (M : TopicRNNModel) (tf : List (List ℝ)) : List (List ℝ) :=
  (M.g.forward tf).map fun mk => vecAdd (mk.map fun row => dot row M.w2) M.a2

/-- One entry of line 148: `1 + 2 * log_sigma - mu ** 2 - exp(2 * log_sigma)`. -/
def klSummand (m l : ℝ) : ℝ := 1 + 2 * l - m ^ 2 - Real.exp (2 * l)

/-- Lines 148-149 before the division: the sum of
`1 + 2 * log_sigma - mu ** 2 - exp(2 * log_sigma)` over every entry of the
`(batch, topic_dim)` Gaussian-parameter tensors (`torch.sum` sums over all
entries); the code's `neg_kl_div` is `klSum mu ls / 2`. -/
def klSum (mu ls : List (List ℝ)) : ℝ :=
  (List.zipWith (fun mr lr => (List.zipWith klSummand mr lr).sum) mu ls).sum

/-- Line 153: the updated stored topic proportions
`softmax(mu + exp(log_sigma) * epsilon, dim=-1)` — row `b` is the softmax of
`mu[b] + exp(log_sigma[b]) * epsilon`, the noise row `epsilon` being
broadcast over (shared by) all batch rows. -/
def thetaUpdate (mu ls : List (List ℝ)) (eps : List ℝ) : List (List ℝ) :=
  List.zipWith (fun mr lr =>
    softmaxList (List.zipWith (fun p e => p.1 + Real.exp p.2 * e) (mr.zip lr) eps))
    mu ls

/-- `log Σ exp` of a logit row. -/
def logSumExp (v : List ℝ) : ℝ := Real.log ((v.map Real.exp).sum)

/-- Modelled from the spec: `torch.nn.functional.cross_entropy` (an external
torch library function) with its default mean reduction — the mean over rows
of the true negative log-likelihood `log Σ_j exp logits[j] − logits[target]`
of the softmaxed logits. -/
def crossEntropy (logits : List (List ℝ)) (target : List Nat) : ℝ :=
  ((List.zipWith (fun row t => logSumExp row - row.getD t 0) logits target).sum) /
    (target.length : ℝ)

/-- Number of elements of a `(layers, batch, hidden)` tensor. -/
def numelH (h : Hidden) : Nat := (h.map fun m => (m.map List.length).sum).sum

/-- Python `not hidden` on the `Optional[Tensor]` parameter of `likelihood`
(line 132): `not None` is `True`; on a tensor, Python calls `bool()`, which
raises `RuntimeError` ("Boolean value of Tensor with more than one element
is ambiguous") unless the tensor has exactly one element, in which case the
truth value is `element != 0`. -/
def pyNotHidden : Option Hidden → Except PyErr Bool
  | none => Except.ok true
  | some h =>
    if numelH h = 1 then
      Except.ok (if ((h.getD 0 []).getD 0 []).getD 0 0 = 0 then true else false)
    else Except.error PyErr.ambiguousBool

/-- `TopicRNN.likelihood` (lines 130-161).  The noise draw
`self.noise.rsample()` (a fresh sample of the fixed standard-normal source of
dimension `topic_dim`) is threaded explicitly as `epsilon`.  Returns the
scalar loss, the updated hidden state, and the new stored `theta` (the
mutation of `self.theta` on line 153, threaded explicitly); an error raised
by the `bool()` truthiness test on `hidden` or by the forward pass
propagates. -/
def TopicRNNModel.likelihood (M : TopicRNNModel) (input : List (List Nat))
    (hidden : Option Hidden) (term_frequencies : Option (List (List ℝ)))
    (target : List (List Nat)) (epsilon : List ℝ) :
    Except PyErr (ℝ × Hidden × Theta) :=
  match pyNotHidden hidden with
  | Except.error e => Except.error e
  | Except.ok notH =>
    let hidden0 := if notH then M.init_hidden else hidden.getD M.init_hidden
    let kl_theta :=
      match term_frequencies with
      | some tf =>
        if M.use_topics then
          (klSum (muOf M tf) (logSigmaOf M tf) / 2,
           Theta.mat (thetaUpdate (muOf M tf) (logSigmaOf M tf) epsilon))
        else ((0 : ℝ), M.theta)
      | none => ((0 : ℝ), M.theta)
    (({ M with theta := kl_theta.2 }).forward input hidden0).map fun fwd : List (List (List ℝ)) × Hidden =>
      (-kl_theta.1 + crossEntropy fwd.1.flatten target.flatten, fwd.2, kl_theta.2)

/-- A small concrete inference network used for concrete evaluations:
`vc_dim = 2`, `hidden_size = 2`, `topic_dim = 2`; the first affine map sends
`[x, y]` to `[x, 0, 0, 0]`, the second is the identity. -/
def gC : GNet :=
  { vc_dim := 2, hidden_size := 2, topic_dim := 2,
    W1 := [[1, 0], [0, 0], [0, 0], [0, 0]], b1 := [0, 0, 0, 0],
    W2 := [[1, 0, 0, 0], [0, 1, 0, 0], [0, 0, 1, 0], [0, 0, 0, 1]],
    b2 := [0, 0, 0, 0] }

/-- A small concrete model instance for concrete evaluations: vocabulary 3
with stop id 0, two topics, batch size 2, two layers, hidden size 1;
`rnn` is a concrete stand-in function for the external recurrent module. -/
def Mc : TopicRNNModel :=
  { vocab_size := 3, embedding_size := 1, hidden_size := 1, batch_size := 2,
    layers := 2, topic_dim := 2, stop_indices := [0], use_topics := true,
    theta := Theta.mat [[1 / 2, 1 / 2], [1 / 2, 1 / 2]],
    beta := [[1, 2, 3], [4, 5, 6]],
    g := gC,
    w1 := [1, 0], a1 := [0, 0], w2 := [0, 0], a2 := [0, 0],
    embedding := [[0], [1], [2]],
    rnn := fun e h => (e, h),
    decoderW := [[1], [0], [0]], decoderB := [0, 0, 0] }

/-- A concrete inference network with all-zero weights: `vc_dim = 1`,
`hidden_size = 3`, `topic_dim = 2`, so the feed-forward stack sends every
input to the zero vector of length 6. -/
def g0 : GNet :=
  { vc_dim := 1, hidden_size := 3, topic_dim := 2,
    W1 := [[0], [0], [0], [0], [0], [0]], b1 := [0, 0, 0, 0, 0, 0],
    W2 := [[0, 0, 0, 0, 0, 0], [0, 0, 0, 0, 0, 0], [0, 0, 0, 0, 0, 0],
           [0, 0, 0, 0, 0, 0], [0, 0, 0, 0, 0, 0], [0, 0, 0, 0, 0, 0]],
    b2 := [0, 0, 0, 0, 0, 0] }

/-- A concrete two-document term-frequency batch for `Mc`: the two batch
rows differ, so the inferred Gaussian parameters differ per batch row. -/
def tfC : List (List ℝ) := [[1, 0], [0, 0]]

/-- The stored `theta` that the concrete `likelihood` call produces. -/
def thetaC : List (List ℝ) :=
  thetaUpdate (muOf Mc tfC) (logSigmaOf Mc tfC) [0, 0]

/-- `Mc` as freshly constructed: its stored `theta` is still the 1-D
normalized random draw of `__init__` lines 47-49 (here the uniform
`[1/2, 1/2]` of length `topic_dim = 2`), never yet updated. -/
def McFresh : TopicRNNModel := { Mc with theta := Theta.vec [1 / 2, 1 / 2] }

/-- The topic-bias matrix of `Mc`'s (already 2-D) stored theta. -/
def taC : List (List ℝ) :=
  zeroStopCols Mc.stop_indices (matMul [[1 / 2, 1 / 2], [1 / 2, 1 / 2]] Mc.beta)

end

/-! ### Theorems -/

/-- Helper: flattening consecutive width-`b` slices of `l` starting at
`0, b, 2b, …` (`m` of them) is the same as taking the first `m * b`
elements. -/
theorem flatten_slices (l : List α) (b : Nat) :
    ∀ (m : Nat), ((List.range' 0 m b).map fun i => (l.drop i).take b).flatten =
      l.take (m * b) := by
  suffices h : ∀ (m : Nat) (u : List α),
      ((List.range' 0 m b).map fun i => (u.drop i).take b).flatten = u.take (m * b) by
    intro m; exact h m l
  intro m
  induction m with
  | zero => intro u; simp
  | succ n ih =>
    intro u
    rw [List.range'_succ]
    have hr := List.map_add_range' b 0 n b
    rw [Nat.add_zero] at hr
    simp only [Nat.zero_add, List.map_cons, List.flatten_cons, List.drop_zero]
    rw [← hr, List.map_map]
    have hcomp : ((fun i => List.take b (List.drop i u)) ∘ fun x => b + x) =
        fun i => List.take b (List.drop i (List.drop b u)) := by
      funext i
      simp [List.drop_drop]
    rw [hcomp, ih (List.drop b u)]
    have hmul : (n + 1) * b = b + n * b := by ring
    rw [hmul, List.take_add]

/-- Helper: the length of the loader's `range` call, in terms of
`q = len(examples) // batch_size`. -/
theorem loaderRangeLen (q b : Nat) (hb : 0 < b) :
    (q * b - b + b - 1) / b = q - 1 := by
  rcases Nat.eq_zero_or_pos q with h0 | hpos
  · subst h0
    have h2 : 0 * b - b + b - 1 = b - 1 := by omega
    rw [h2, Nat.zero_sub]
    exact Nat.div_eq_of_lt (by omega)
  · obtain ⟨r, rfl⟩ : ∃ r, q = r + 1 := ⟨q - 1, by omega⟩
    have hrb : (r + 1) * b = b * r + b := by ring
    have h2 : (r + 1) * b - b = b * r := by omega
    rw [h2, Nat.add_sub_assoc (by omega : 1 ≤ b) (b * r), Nat.mul_add_div hb,
      Nat.div_eq_of_lt (by omega : b - 1 < b)]
    omega

/-- Helper: the number of batches produced by `data_loader`. -/
theorem dataLoaderBatches_count (τ : Type) (examples : List (Ex τ))
    (b : Nat) (hb : 0 < b) :
    (dataLoaderBatches τ examples b).length = examples.length / b - 1 := by
  unfold dataLoaderBatches pyRange
  simp only [List.length_map, List.length_range', Nat.sub_zero]
  exact loaderRangeLen _ b hb

/-- C7: every batch yielded by `data_loader` has length exactly `batch_size`;
the number of yielded batches equals `len(examples) / batch_size - 1`
(truncated subtraction, so "`floor(N/b) - 1` or fewer" and never more than
`floor(N/b)`); and the concatenation of all yielded batches is exactly the
prefix of the first `(N/b - 1) * b` examples of the epoch's ordering, so the
trailing partial remainder (the last `N mod b` examples) is never observed in
any yielded batch. -/
theorem claim7_data_loader_batch_shape (τ : Type) (examples : List (Ex τ))
    (b : Nat) (hb : 0 < b) :
    (∀ batch ∈ dataLoaderBatches τ examples b, batch.length = b) ∧
    (dataLoaderBatches τ examples b).length = examples.length / b - 1 ∧
    (dataLoaderBatches τ examples b).flatten =
      examples.take ((examples.length / b - 1) * b) := by
  refine ⟨?_, dataLoaderBatches_count τ examples b hb, ?_⟩
  · intro batch hmem
    unfold dataLoaderBatches pyRange at hmem
    simp only [Nat.sub_zero, List.mem_map] at hmem
    obtain ⟨i, hi, rfl⟩ := hmem
    rw [List.mem_range'] at hi
    obtain ⟨j, hj, rfl⟩ := hi
    rw [loaderRangeLen _ b hb] at hj
    unfold pySlice
    rw [List.length_take, List.length_drop]
    have h1 : j + 1 ≤ examples.length / b - 1 := by omega
    have h2 : b * (j + 1) ≤ b * (examples.length / b - 1) :=
      Nat.mul_le_mul_left _ h1
    have h3 : b * (examples.length / b - 1) ≤ b * (examples.length / b) :=
      Nat.mul_le_mul_left _ (by omega)
    have h4 : b * (examples.length / b) ≤ examples.length := by
      rw [Nat.mul_comm]; exact Nat.div_mul_le_self _ _
    have h5 : b * (j + 1) = b * j + b := by ring
    omega
  · unfold dataLoaderBatches pyRange pySlice
    simp only [Nat.sub_zero]
    rw [loaderRangeLen _ b hb]
    exact flatten_slices examples b _

/-- Concrete instance of C7: five examples, batch size 2 — one batch of
length 2 is yielded, covering exactly the first two examples. -/
theorem claim7_witness :
    (0 < 2) ∧
    ((∀ batch ∈ dataLoaderBatches Nat
        ((List.range 5).map fun k => { id := k, input := [], target := [], index := 0 }) 2,
        batch.length = 2) ∧
      (dataLoaderBatches Nat
        ((List.range 5).map fun k => { id := k, input := [], target := [], index := 0 }) 2).length =
        ((List.range 5).map fun k =>
          ({ id := k, input := [], target := [], index := 0 } : Ex Nat)).length / 2 - 1 ∧
      (dataLoaderBatches Nat
        ((List.range 5).map fun k => { id := k, input := [], target := [], index := 0 }) 2).flatten =
        ((List.range 5).map fun k =>
          ({ id := k, input := [], target := [], index := 0 } : Ex Nat)).take
          ((((List.range 5).map fun k =>
            ({ id := k, input := [], target := [], index := 0 } : Ex Nat)).length / 2 - 1) * 2)) :=
  ⟨by norm_num,
   claim7_data_loader_batch_shape Nat
     ((List.range 5).map fun k => { id := k, input := [], target := [], index := 0 }) 2
     (by norm_num)⟩

/-- C8: for a document encoding of length `L` and window length `B`, `_read`
produces exactly `L - B - 1` sliding windows (truncated subtraction, i.e.
`max(0, L - B - 1)`); window `i` carries `input = encoding[i : i + B]` and
`target = encoding[i + 1 : i + 1 + B]`, both of length exactly `B` and offset
by one position token-for-token; and no window starts within the last `B + 1`
token positions (no wraparound). -/
theorem claim8_read_sliding_windows (τ : Type) (id B : Nat) (enc : List Nat) :
    (readWindows τ id enc B).length = enc.length - B - 1 ∧
    (∀ i, i < enc.length - B - 1 →
      (readWindows τ id enc B)[i]? = some
        { id := id, input := pySlice enc i B,
          target := pySlice enc (i + 1) B, index := i }) ∧
    (∀ i, i < enc.length - B - 1 →
      (pySlice enc i B).length = B ∧ (pySlice enc (i + 1) B).length = B ∧
      ∀ j, j < B →
        (pySlice enc i B).getD j 0 = enc.getD (i + j) 0 ∧
        (pySlice enc (i + 1) B).getD j 0 = enc.getD (i + 1 + j) 0) ∧
    (∀ i, i < enc.length - B - 1 → i + (B + 1) < enc.length) := by
  refine ⟨by simp [readWindows], ?_, ?_, by intro i hi; omega⟩
  · intro i hi
    unfold readWindows
    rw [List.getElem?_map, List.getElem?_range hi]
    rfl
  · intro i hi
    refine ⟨?_, ?_, ?_⟩
    · unfold pySlice; rw [List.length_take, List.length_drop]; omega
    · unfold pySlice; rw [List.length_take, List.length_drop]; omega
    · intro j hj
      constructor
      · simp [pySlice, List.getD_eq_getElem?_getD, List.getElem?_take,
          List.getElem?_drop, hj]
      · simp [pySlice, List.getD_eq_getElem?_getD, List.getElem?_take,
          List.getElem?_drop, hj, Nat.add_assoc]

/-- Concrete instance of C8: a six-token document with window length 2 yields
three windows; window 1 reads tokens 1-2 as input and tokens 2-3 as target. -/
theorem claim8_witness :
    (1 < [0, 1, 2, 3, 4, 5].length - 2 - 1) ∧ (0 < 2) ∧
    (readWindows Nat 7 [0, 1, 2, 3, 4, 5] 2).length = [0, 1, 2, 3, 4, 5].length - 2 - 1 ∧
    ((pySlice [0, 1, 2, 3, 4, 5] 1 2).getD 0 0 = [0, 1, 2, 3, 4, 5].getD (1 + 0) 0 ∧
     (pySlice [0, 1, 2, 3, 4, 5] (1 + 1) 2).getD 0 0 = [0, 1, 2, 3, 4, 5].getD (1 + 1 + 0) 0) ∧
    1 + (2 + 1) < [0, 1, 2, 3, 4, 5].length :=
  ⟨by norm_num, by norm_num,
   (claim8_read_sliding_windows Nat 7 2 [0, 1, 2, 3, 4, 5]).1,
   ((claim8_read_sliding_windows Nat 7 2 [0, 1, 2, 3, 4, 5]).2.2.1 1 (by norm_num)).2.2 0
     (by norm_num),
   (claim8_read_sliding_windows Nat 7 2 [0, 1, 2, 3, 4, 5]).2.2.2 1 (by norm_num)⟩

/-- C9 counterexample: a document whose `"title"` key is missing has an
unavailable title, yet `_read` raises `KeyError` (there is no try/except in
`_read` or `load`), and the error propagates out of `load` instead of the
document being silently skipped. -/
theorem claim9_counterexample :
    readDoc Nat (fun _ => some []) (fun _ => 0) 3
      (some { title := none, text := some (some "x") }) 0
      { id_to_title := [], id_to_term_frequency := [], examples := [] } =
      Except.error PyErr.keyError ∧
    loadFrom Nat (fun _ => some []) (fun _ => 0) 3
      [some { title := none, text := some (some "x") }] 0
      { id_to_title := [], id_to_term_frequency := [], examples := [] } =
      Except.error PyErr.keyError := by
  constructor <;> rfl

/-- C9 (amended): when a document parses and carries both the `"title"` and
`"text"` keys, a `None` title or an unavailable (`None`) encoding makes
`_read` return the empty example list with the reader state untouched, and
`load` silently skips such a document and continues with the rest; however an
unparseable document or a missing `"title"`/`"text"` key raises an error that
propagates out of the per-document read step (and hence out of `load`). -/
theorem claim9_none_title_or_encoding_skipped (τ : Type)
    (encode : Option String → Option (List Nat)) (termFreq : List Nat → τ)
    (bl : Nat) (d : RawDoc) (tv : Option String) (xv : Option String)
    (id : Nat) (st : ReaderState τ) (rest : List (Option RawDoc)) :
    (d.title = some tv → d.text = some xv → (tv = none ∨ encode xv = none) →
      readDoc τ encode termFreq bl (some d) id st = Except.ok ([], st) ∧
      loadFrom τ encode termFreq bl (some d :: rest) id st =
        loadFrom τ encode termFreq bl rest (id + 1) st) ∧
    (readDoc τ encode termFreq bl none id st = Except.error PyErr.jsonError) ∧
    (d.title = none →
      readDoc τ encode termFreq bl (some d) id st = Except.error PyErr.keyError) ∧
    (d.title = some tv → d.text = none →
      readDoc τ encode termFreq bl (some d) id st = Except.error PyErr.keyError) := by
  refine ⟨?_, rfl, ?_, ?_⟩
  · intro ht hx hnone
    obtain ⟨dt, dx⟩ := d
    replace ht : dt = some tv := ht
    replace hx : dx = some xv := hx
    subst ht
    subst hx
    have hread : readDoc τ encode termFreq bl
        (some { title := some tv, text := some xv }) id st = Except.ok ([], st) := by
      rcases hnone with h | h
      · subst h; rfl
      · cases tv with
        | none => rfl
        | some t =>
          simp only [readDoc, dictGet]
          rw [h]
    refine ⟨hread, ?_⟩
    rw [loadFrom, hread]
    simp
  · intro ht
    obtain ⟨dt, dx⟩ := d
    replace ht : dt = none := ht
    subst ht
    rfl
  · intro ht hx
    obtain ⟨dt, dx⟩ := d
    replace ht : dt = some tv := ht
    replace hx : dx = none := hx
    subst ht
    subst hx
    cases tv <;> rfl

/-- Concrete instance of the amended C9: a present-but-`None` title is
skipped by `_read` and by `load`. -/
theorem claim9_witness :
    (({ title := some none, text := some (some "x") } : RawDoc).title = some none ∧
      ({ title := some none, text := some (some "x") } : RawDoc).text = some (some "x") ∧
      (none : Option String) = none) ∧
    readDoc Nat (fun _ => some []) (fun _ => 0) 3
      (some { title := some none, text := some (some "x") }) 5
      { id_to_title := [], id_to_term_frequency := [], examples := [] } =
      Except.ok ([], { id_to_title := [], id_to_term_frequency := [], examples := [] }) ∧
    loadFrom Nat (fun _ => some []) (fun _ => 0) 3
      [some { title := some none, text := some (some "x") }, none] 5
      { id_to_title := [], id_to_term_frequency := [], examples := [] } =
      loadFrom Nat (fun _ => some []) (fun _ => 0) 3 [none] (5 + 1)
      { id_to_title := [], id_to_term_frequency := [], examples := [] } :=
  ⟨⟨rfl, rfl, rfl⟩,
   ((claim9_none_title_or_encoding_skipped Nat (fun _ => some []) (fun _ => 0) 3
      { title := some none, text := some (some "x") } none (some "x") 5
      { id_to_title := [], id_to_term_frequency := [], examples := [] }
      [none]).1 rfl rfl (Or.inl rfl)).1,
   ((claim9_none_title_or_encoding_skipped Nat (fun _ => some []) (fun _ => 0) 3
      { title := some none, text := some (some "x") } none (some "x") 5
      { id_to_title := [], id_to_term_frequency := [], examples := [] }
      [none]).1 rfl rfl (Or.inl rfl)).2⟩

/-- Helper: the result of folding an idempotent in-place update over a list
of positions, read back position-wise. -/
theorem foldl_modify_getElem? (f : α → α) (hf : ∀ a, f (f a) = f a)
    (ps : List Nat) (l : List α) (p : Nat) :
    (ps.foldl (fun st q => List.modify f q st) l)[p]? =
      if p ∈ ps then (l[p]?).map f else l[p]? := by
  induction ps generalizing l with
  | nil => simp
  | cons q rest ih =>
    simp only [List.foldl_cons]
    rw [ih]
    by_cases hq : p = q
    · subst hq
      by_cases hin : p ∈ rest
      · simp only [hin, if_true, List.mem_cons, true_or, List.getElem?_modify]
        cases l[p]? with
        | none => rfl
        | some a => simp [hf]
      · simp only [hin, if_false, List.mem_cons, true_or, if_true,
          List.getElem?_modify]
        cases l[p]? with
        | none => rfl
        | some a => simp
    · have hne : ¬(q = p) := fun h => hq h.symm
      by_cases hin : p ∈ rest <;>
        simp [hin, hq, hne, List.getElem?_modify, List.mem_cons]

/-- C10: `data_loader` mutates the reader's stored examples in place.  After
an epoch (any ordering `perm` of store positions, in particular a shuffled
one — the shuffle copies only the list, not the records), the store record
at every position that appeared in a yielded batch carries
`title = some (id_to_title ex.id)` and
`term_frequency = some (id_to_term_frequency ex.id)` — added or overwritten —
while its `id`, `input`, `target` and `index` fields are unchanged; a record
at a position never yielded is untouched. -/
theorem claim10_data_loader_mutates_store (τ : Type) (titleM : Nat → String)
    (tfM : Nat → τ) (store : List (Ex τ)) (perm : List Nat) (b : Nat) (p : Nat) :
    (p ∈ (epochBatchPositions perm b).flatten →
      (runEpoch τ titleM tfM store perm b)[p]? = (store[p]?).map fun e =>
        { id := e.id, input := e.input, target := e.target, index := e.index,
          title := some (titleM e.id), term_frequency := some (tfM e.id) }) ∧
    (p ∉ (epochBatchPositions perm b).flatten →
      (runEpoch τ titleM tfM store perm b)[p]? = store[p]?) := by
  have hidem : ∀ e : Ex τ, annotate τ titleM tfM (annotate τ titleM tfM e) =
      annotate τ titleM tfM e := by
    intro e; rfl
  have hfold := foldl_modify_getElem? (annotate τ titleM tfM) hidem
    ((epochBatchPositions perm b).flatten) store p
  constructor
  · intro hin
    rw [runEpoch, hfold, if_pos hin]
    rcases store[p]? with _ | e
    · rfl
    · rfl
  · intro hout
    rw [runEpoch, hfold, if_neg hout]

/-- Concrete instance of C10: store of two examples, ordering `[1, 0]`,
batch size 1 — position 1 is yielded (and gets the two fields), position 0
is in the dropped trailing batch and stays untouched. -/
theorem claim10_witness :
    ((1 : Nat) ∈ (epochBatchPositions [1, 0] 1).flatten) ∧
    ((0 : Nat) ∉ (epochBatchPositions [1, 0] 1).flatten) ∧
    (runEpoch Nat (fun _ => "t") (fun n => n)
        [{ id := 3, input := [1], target := [2], index := 0 },
         { id := 4, input := [5], target := [6], index := 1 }] [1, 0] 1)[1]? =
      some { id := 4, input := [5], target := [6], index := 1,
             title := some "t", term_frequency := some 4 } ∧
    (runEpoch Nat (fun _ => "t") (fun n => n)
        [{ id := 3, input := [1], target := [2], index := 0 },
         { id := 4, input := [5], target := [6], index := 1 }] [1, 0] 1)[0]? =
      some { id := 3, input := [1], target := [2], index := 0 } := by
  have h1 : (1 : Nat) ∈ (epochBatchPositions [1, 0] 1).flatten := by decide
  have h0 : (0 : Nat) ∉ (epochBatchPositions [1, 0] 1).flatten := by decide
  refine ⟨h1, h0, ?_, ?_⟩
  · rw [(claim10_data_loader_mutates_store Nat (fun _ => "t") (fun n => n)
      [{ id := 3, input := [1], target := [2], index := 0 },
       { id := 4, input := [5], target := [6], index := 1 }] [1, 0] 1 1).1 h1]
    rfl
  · rw [(claim10_data_loader_mutates_store Nat (fun _ => "t") (fun n => n)
      [{ id := 3, input := [1], target := [2], index := 0 },
       { id := 4, input := [5], target := [6], index := 1 }] [1, 0] 1 0).2 h0]
    rfl

/-- Helper: `zipWith` of two equal-length `replicate`s. -/
theorem zipWith_replicate_same (f : α → β → γ) (n : Nat) (a : α) (b : β) :
    List.zipWith f (List.replicate n a) (List.replicate n b) =
      List.replicate n (f a b) := by
  induction n with
  | zero => rfl
  | succ k ih => simp [List.replicate_succ, ih]

/-- Helper: the KL sum vanishes on zero Gaussian-parameter matrices of any
shape. -/
theorem klSum_zeros (B K : Nat) : klSum (zerosMat B K) (zerosMat B K) = 0 := by
  unfold klSum zerosMat zerosVec
  rw [zipWith_replicate_same, zipWith_replicate_same]
  have h0 : klSummand 0 0 = 0 := by
    unfold klSummand
    norm_num [Real.exp_zero]
  rw [h0]
  simp

/-- Helper: `Except.map` with pointwise-equal functions. -/
theorem exceptMap_congr {e : Except ε α} {f g : α → β} (h : ∀ a, f a = g a) :
    e.map f = e.map g := by
  cases e <;> simp [Except.map, h]

/-- Helper: inverting `Except.map` on an `ok` result. -/
theorem exceptMap_eq_ok {e : Except ε α} {f : α → β} {b : β}
    (h : e.map f = Except.ok b) : ∃ a, e = Except.ok a ∧ f a = b := by
  cases e with
  | error err => simp [Except.map] at h
  | ok a => exact ⟨a, rfl, by simpa [Except.map] using h⟩

/-- Helper: the shape of a topics-enabled `likelihood` call with term
frequencies, in the code's own loss order: the theta update is stored, the
forward pass runs on the updated model (propagating any shape error), and
the loss is `-neg_kl_div + cross_entropy`. -/
theorem likelihood_some_tf_eq (M : TopicRNNModel) (input target : List (List Nat))
    (tf : List (List ℝ)) (eps : List ℝ) (h : M.use_topics = true) :
    M.likelihood input none (some tf) target eps =
      (({ M with theta := Theta.mat (thetaUpdate (muOf M tf) (logSigmaOf M tf) eps) }).forward
          input M.init_hidden).map fun fwd : List (List (List ℝ)) × Hidden =>
        (-(klSum (muOf M tf) (logSigmaOf M tf) / 2) +
            crossEntropy fwd.1.flatten target.flatten, fwd.2,
          Theta.mat (thetaUpdate (muOf M tf) (logSigmaOf M tf) eps)) := by
  obtain ⟨vs, es, hs, bs, ly, td, si, ut, th, be, gg, w1v, a1v, w2v, a2v, em, rn, dW, dB⟩ := M
  replace h : ut = true := h
  subst h
  rfl

/-- C1: on a `likelihood` call with term frequencies present and topics
enabled, the returned loss is the cross-entropy plus the true KL divergence
`-(1/2) * Σ (1 + 2*log_sigma - mu^2 - exp(2*log_sigma))` (the code's
`neg_kl_div` is the sum over all `(batch, topic_dim)` entries divided by 2
and enters the loss negated once, never double-negated; a shape error from
the forward pass passes through unchanged); and the closed-form expression
vanishes at `mu = 0, log_sigma = 0` for any shape. -/
theorem claim1_kl_sign_and_zero (M : TopicRNNModel) (input target : List (List Nat))
    (tf : List (List ℝ)) (eps : List ℝ) (h : M.use_topics = true) :
    M.likelihood input none (some tf) target eps =
      (({ M with theta := Theta.mat (thetaUpdate (muOf M tf) (logSigmaOf M tf) eps) }).forward
          input M.init_hidden).map (fun fwd : List (List (List ℝ)) × Hidden =>
        (crossEntropy fwd.1.flatten target.flatten +
            -(klSum (muOf M tf) (logSigmaOf M tf) / 2), fwd.2,
          Theta.mat (thetaUpdate (muOf M tf) (logSigmaOf M tf) eps))) ∧
    (∀ B K : Nat, klSum (zerosMat B K) (zerosMat B K) = 0) := by
  refine ⟨?_, fun B K => klSum_zeros B K⟩
  rw [likelihood_some_tf_eq M input target tf eps h]
  exact exceptMap_congr fun fwd => by rw [add_comm]

/-- Concrete instance of C1: the concrete forward pass succeeds, so the
call returns `Except.ok` with loss = cross-entropy + true KL. -/
theorem claim1_witness :
    Mc.use_topics = true ∧
    Mc.likelihood [[1]] none (some tfC) [[2]] [0, 0] =
      (({ Mc with theta := Theta.mat thetaC }).forward [[1]] Mc.init_hidden).map
        (fun fwd : List (List (List ℝ)) × Hidden =>
          (crossEntropy fwd.1.flatten [[2]].flatten +
              -(klSum (muOf Mc tfC) (logSigmaOf Mc tfC) / 2), fwd.2,
            Theta.mat thetaC)) ∧
    (Mc.likelihood [[1]] none (some tfC) [[2]] [0, 0]).toOption.isSome = true :=
  ⟨rfl, (claim1_kl_sign_and_zero Mc [[1]] [[2]] tfC [0, 0] rfl).1, rfl⟩

/-- Helper: reading one position of the broadcast topic-bias addition. -/
theorem getD_zipWith_map_vecAdd (decoded : List (List (List ℝ)))
    (ta : List (List ℝ)) (b s : Nat) :
    ((List.zipWith (fun seq t => seq.map fun row => vecAdd row t)
        decoded ta).getD b []).getD s [] =
      vecAdd ((decoded.getD b []).getD s []) (ta.getD b []) := by
  rcases hd : decoded[b]? with _ | seq <;> rcases ht : ta[b]? with _ | t <;>
      simp only [List.getD_eq_getElem?_getD, List.getElem?_zipWith, hd, ht,
        Option.getD_none, Option.getD_some]
  · simp [vecAdd]
  · simp [vecAdd]
  · simp [vecAdd]
  · rw [List.getElem?_map]
    cases hs : seq[s]? with
    | none => simp [vecAdd]
    | some row => simp

/-- Helper: every stopword column of the zeroed topic-bias matrix reads 0. -/
theorem getD_zeroStopCols (stop : List Nat) (m : List (List ℝ)) (b j : Nat)
    (hj : j ∈ stop) :
    ((zeroStopCols stop m).getD b []).getD j 0 = 0 := by
  unfold zeroStopCols
  simp only [List.getD_eq_getElem?_getD, List.getElem?_map]
  cases hb : m[b]? with
  | none => simp
  | some row =>
    simp only [Option.map_some', Option.getD_some, List.getElem?_mapIdx]
    cases hr : row[j]? with
    | none => simp
    | some x => simp [hj]

/-- C4: with topic injection enabled, whenever the topic-bias construction
succeeds (value `ta = theta · beta` with stopword columns zeroed), the
forward pass returns the plain decoder's hidden state together with logits
in which every sequence position `s` of batch element `b` equals the plain
decoder logits at `(b, s)` plus the one bias vector `ta[b]` — the added bias
does not depend on `s` (position-invariance), and its stopword entries read
exactly 0 for every batch element. -/
theorem claim4_topic_bias_broadcast (M : TopicRNNModel)
    (input : List (List Nat)) (hidden : Hidden) (h : M.use_topics = true)
    (ta : List (List ℝ)) (hta : M.topicAdditions = Except.ok ta) :
    M.forward input hidden = Except.ok
      (List.zipWith (fun seq t => seq.map fun row => vecAdd row t)
        (decodedOf M input hidden).1 ta, (decodedOf M input hidden).2) ∧
    (∀ b s : Nat, ((List.zipWith (fun seq t => seq.map fun row => vecAdd row t)
        (decodedOf M input hidden).1 ta).getD b []).getD s [] =
      vecAdd (((decodedOf M input hidden).1.getD b []).getD s [])
        (ta.getD b [])) ∧
    (∀ b j : Nat, j ∈ M.stop_indices → (ta.getD b []).getD j 0 = 0) := by
  refine ⟨?_, ?_, ?_⟩
  · simp [TopicRNNModel.forward, h, hta, Except.map]
  · intro b s
    exact getD_zipWith_map_vecAdd _ _ b s
  · intro b j hj
    rw [TopicRNNModel.topicAdditions] at hta
    cases hv : M.theta.view M.batch_size with
    | error e => rw [hv] at hta; simp [Except.bind] at hta
    | ok tv =>
      rw [hv] at hta
      simp only [Except.bind] at hta
      cases hm : mmChecked tv M.beta with
      | error e => rw [hm] at hta; simp [Except.map] at hta
      | ok mm =>
        rw [hm] at hta
        simp only [Except.map, Except.ok.injEq] at hta
        subst hta
        exact getD_zeroStopCols _ _ b j hj

/-- Concrete instance of C4: in the small model the bias construction
succeeds with value `taC`; position 0 of batch element 0 receives that bias
vector, and stop id 0's bias entry is 0. -/
theorem claim4_witness :
    Mc.use_topics = true ∧
    Mc.topicAdditions = Except.ok taC ∧
    ((List.zipWith (fun seq t => seq.map fun row => vecAdd row t)
        (decodedOf Mc [[1]] []).1 taC).getD 0 []).getD 0 [] =
      vecAdd (((decodedOf Mc [[1]] []).1.getD 0 []).getD 0 []) (taC.getD 0 []) ∧
    (0 ∈ Mc.stop_indices) ∧
    (taC.getD 0 []).getD 0 0 = 0 :=
  ⟨rfl, rfl,
   (claim4_topic_bias_broadcast Mc [[1]] [] rfl taC rfl).2.1 0 0,
   List.mem_singleton.mpr rfl,
   (claim4_topic_bias_broadcast Mc [[1]] [] rfl taC rfl).2.2 0 0
     (List.mem_singleton.mpr rfl)⟩

/-- C5 counterexample: on the freshly constructed model `McFresh`
(`use_topics = True`, `batch_size = 2`, stored `theta` still the 1-D
random-uniform initialization of length `topic_dim = 2`), a `likelihood`
call with absent term frequencies does **not** proceed silently: the topic
pathway's KL/theta update is indeed skipped, but the forward pass still
injects the old 1-D theta and raises a shape error at
`theta.view(batch_size, -1)` / `torch.mm` (the view gives a `(2, 1)` tensor
whose inner dimension 1 does not match `beta`'s 2 rows). -/
theorem claim5_counterexample :
    McFresh.use_topics = true ∧
    McFresh.batch_size = 2 ∧
    McFresh.theta = Theta.vec [1 / 2, 1 / 2] ∧
    McFresh.likelihood [[1]] none none [[2]] [0, 0] =
      Except.error PyErr.shapeError :=
  ⟨rfl, rfl, rfl, rfl⟩

/-- C5 (amended): a `likelihood` call without term frequencies (or with
topics disabled) skips the topic-inference step: its KL contribution is
exactly `-(0)` and the stored `theta` is left unchanged from its prior
value; with `use_topics` disabled the call proceeds silently and the forward
pass returns exactly the plain decoded logits with no additive topic term.
With `use_topics` still enabled, however, the forward pass still injects the
*old* stored theta, so the call proceeds only when that theta is
shape-compatible with `view(batch_size, -1)` and `mm(·, beta)` (e.g. after a
previous update, or with `batch_size = 1`); on a never-updated 1-D theta
with `batch_size > 1` it raises a shape error instead of proceeding (see the
counterexample), which the error propagation of the second conjunct
captures. -/
theorem claim5_topic_pathway_silently_disabled (M : TopicRNNModel)
    (input target : List (List Nat)) (eps : List ℝ) (hidden : Hidden)
    (tf : List (List ℝ)) :
    (M.use_topics = false →
      (M.likelihood input none none target eps =
        Except.ok
          (-(0 : ℝ) + crossEntropy (decodedOf M input M.init_hidden).1.flatten
            target.flatten,
           (decodedOf M input M.init_hidden).2, M.theta)) ∧
      (M.likelihood input none (some tf) target eps =
        Except.ok
          (-(0 : ℝ) + crossEntropy (decodedOf M input M.init_hidden).1.flatten
            target.flatten,
           (decodedOf M input M.init_hidden).2, M.theta)) ∧
      M.forward input hidden = Except.ok (decodedOf M input hidden)) ∧
    (M.likelihood input none none target eps =
      (M.forward input M.init_hidden).map fun fwd : List (List (List ℝ)) × Hidden =>
        (-(0 : ℝ) + crossEntropy fwd.1.flatten target.flatten, fwd.2, M.theta)) := by
  refine ⟨fun h => ?_, rfl⟩
  obtain ⟨vs, es, hs, bs, ly, td, si, ut, th, be, gg, w1, a1, w2, a2, em, rn, dW, dB⟩ := M
  replace h : ut = false := h
  subst h
  exact ⟨rfl, rfl, rfl⟩

/-- Concrete instance of the amended C5: with topics disabled the call
proceeds silently with zero KL and plain decoder logits; and on `Mc` (whose
stored theta is already 2-D and shape-compatible) the tf-absent call keeps
theta unchanged with zero KL, error-free. -/
theorem claim5_witness :
    ({ Mc with use_topics := false } : TopicRNNModel).use_topics = false ∧
    ({ Mc with use_topics := false } : TopicRNNModel).likelihood [[1]] none
        (some [[1, 0], [0, 0]]) [[2]] [0, 0] =
      Except.ok
        (-(0 : ℝ) + crossEntropy
            (decodedOf { Mc with use_topics := false } [[1]]
              ({ Mc with use_topics := false } : TopicRNNModel).init_hidden).1.flatten
            [[2]].flatten,
         (decodedOf { Mc with use_topics := false } [[1]]
            ({ Mc with use_topics := false } : TopicRNNModel).init_hidden).2,
         ({ Mc with use_topics := false } : TopicRNNModel).theta) ∧
    ({ Mc with use_topics := false } : TopicRNNModel).forward [[1]] [] =
      Except.ok (decodedOf { Mc with use_topics := false } [[1]] []) ∧
    Mc.likelihood [[1]] none none [[2]] [0, 0] =
      (Mc.forward [[1]] Mc.init_hidden).map (fun fwd : List (List (List ℝ)) × Hidden =>
        (-(0 : ℝ) + crossEntropy fwd.1.flatten [[2]].flatten, fwd.2, Mc.theta)) :=
  ⟨rfl,
   ((claim5_topic_pathway_silently_disabled { Mc with use_topics := false }
      [[1]] [[2]] [0, 0] [] [[1, 0], [0, 0]]).1 rfl).2.1,
   ((claim5_topic_pathway_silently_disabled { Mc with use_topics := false }
      [[1]] [[2]] [0, 0] [] [[1, 0], [0, 0]]).1 rfl).2.2,
   (claim5_topic_pathway_silently_disabled Mc
      [[1]] [[2]] [0, 0] [] [[1, 0], [0, 0]]).2⟩

/-- C6: `likelihood`'s line 132 reads `if not hidden:` instead of
`if hidden is None:`.  `not` on a multi-element tensor raises Python's
"Boolean value of Tensor with more than one element is ambiguous" error, so
supplying a `(layers, batch, hidden_size)` hidden state — here the model's
own zero state of shape `(2, 2, 1)`, 4 elements — makes the call raise
instead of using the supplied state; with `hidden=None` the call does
zero-initialize silently and succeed as the claim says. -/
theorem claim6_supplied_hidden_raises :
    Mc.init_hidden = [[[0], [0]], [[0], [0]]] ∧
    numelH Mc.init_hidden = 4 ∧
    Mc.likelihood [[1]] (some Mc.init_hidden) none [[2]] [0, 0] =
      Except.error PyErr.ambiguousBool ∧
    Mc.likelihood [[1]] none none [[2]] [0, 0] =
      (Mc.forward [[1]] Mc.init_hidden).map (fun fwd : List (List (List ℝ)) × Hidden =>
        (-(0 : ℝ) + crossEntropy fwd.1.flatten [[2]].flatten, fwd.2, Mc.theta)) ∧
    (Mc.forward [[1]] Mc.init_hidden).toOption.isSome = true :=
  ⟨rfl, rfl, rfl, rfl, rfl⟩

/-- Helper: each entry of a softmax-over-the-topic-axis column, read at a
valid hidden index. -/
theorem softmaxTopicAxis_col (m : List (List ℝ)) (h : Nat)
    (hrows : ∀ row ∈ m, h < row.length) :
    (softmaxTopicAxis m).map (fun r => r.getD h 0) =
      m.map fun row => Real.exp (row.getD h 0) /
        ((m.map fun r => Real.exp (r.getD h 0)).sum) := by
  unfold softmaxTopicAxis
  rw [List.map_map]
  apply List.map_congr_left
  intro row hrow
  have hh : h < row.length := hrows row hrow
  simp only [Function.comp_apply, List.getD_eq_getElem?_getD, List.getElem?_mapIdx,
    List.getElem?_eq_getElem hh, Option.map_some', Option.getD_some]

/-- Helper: the entries of the `dim=1` softmax sum to 1 along the topic axis
at every valid hidden index (the sum of `exp` terms is positive because the
matrix is nonempty). -/
theorem softmaxTopicAxis_col_sum (m : List (List ℝ)) (h : Nat)
    (hne : m ≠ []) (hrows : ∀ row ∈ m, h < row.length) :
    ((softmaxTopicAxis m).map fun r => r.getD h 0).sum = 1 := by
  rw [softmaxTopicAxis_col m h hrows]
  have hDpos : 0 < ((m.map fun r => Real.exp (r.getD h 0)).sum) := by
    apply List.sum_pos
    · intro x hx
      rw [List.mem_map] at hx
      obtain ⟨row, _, rfl⟩ := hx
      exact Real.exp_pos _
    · simpa using hne
  have hrw : (m.map fun row => Real.exp (row.getD h 0) /
      ((m.map fun r => Real.exp (r.getD h 0)).sum)) =
      (m.map fun row => Real.exp (row.getD h 0) *
        ((m.map fun r => Real.exp (r.getD h 0)).sum)⁻¹) := by
    simp [div_eq_mul_inv]
  rw [hrw, List.sum_map_mul_right, ← div_eq_mul_inv]
  exact div_self hDpos.ne'

/-- C3 counterexample: with the all-zero network `g0` (`hidden_size = 3`,
`topic_dim = 2`) on the one-vector batch `[[1]]`, the `hidden_size` entries
of topic slot 0 of batch element 0 sum to `3/2`, not 1 — the softmax of
`G.forward` is `nn.Softmax(dim=1)`, over the topic axis, not over the
hidden axis as the claim states. -/
theorem claim3_counterexample :
    (((GNet.forward g0 [[1]]).getD 0 []).getD 0 []).length = g0.hidden_size ∧
    (((GNet.forward g0 [[1]]).getD 0 []).getD 0 []).sum ≠ 1 := by
  constructor
  · rfl
  · have heval : (((GNet.forward g0 [[1]]).getD 0 []).getD 0 []).sum = 3 / 2 := by
      simp only [GNet.forward, GNet.model, linear, matVec, vecAdd, dot, reluVec,
        viewKH, pySlice, softmaxTopicAxis, g0, List.mapIdx_cons, List.mapIdx_nil,
        List.map_cons, List.map_nil, List.zipWith_cons_cons, List.zipWith_nil_right,
        List.zipWith_nil_left, List.sum_cons, List.sum_nil, List.range_succ,
        List.range_zero]
      norm_num [Real.exp_zero]
    rw [heval]
    norm_num

/-- C3 (amended): `G.forward` maps a `batch × vc_dim` term-frequency batch
to a `batch × topic_dim × hidden_size` tensor (also for batch size 1) via
two stacked affine transforms with a ReLU between and after them, followed
by a softmax normalization applied along the *topic* axis (`dim=1`): for
every batch element and every hidden index, the `topic_dim` entries at that
hidden index sum to 1 (not the `hidden_size` entries of a topic slot). -/
theorem claim3_g_forward_shape (g : GNet) (tfB : List (List ℝ))
    (hK : 0 < g.topic_dim)
    (hlen : ∀ tf ∈ tfB, (g.model tf).length = g.topic_dim * g.hidden_size) :
    (g.forward tfB).length = tfB.length ∧
    ∀ out ∈ g.forward tfB,
      out.length = g.topic_dim ∧
      (∀ row ∈ out, row.length = g.hidden_size) ∧
      ∀ h, h < g.hidden_size → ((out.map fun r => r.getD h 0).sum) = 1 := by
  constructor
  · simp [GNet.forward]
  · intro out hout
    rw [GNet.forward, List.mem_map] at hout
    obtain ⟨tf, htf, rfl⟩ := hout
    have hv : (g.model tf).length = g.topic_dim * g.hidden_size := hlen tf htf
    have hviewlen : (viewKH g.topic_dim g.hidden_size (g.model tf)).length =
        g.topic_dim := by
      simp [viewKH]
    have hviewrows : ∀ row ∈ viewKH g.topic_dim g.hidden_size (g.model tf),
        row.length = g.hidden_size := by
      intro row hrow
      rw [viewKH, List.mem_map] at hrow
      obtain ⟨k, hk, rfl⟩ := hrow
      rw [List.mem_range] at hk
      unfold pySlice
      rw [List.length_take, List.length_drop, hv]
      have hmul : (k + 1) * g.hidden_size ≤ g.topic_dim * g.hidden_size :=
        Nat.mul_le_mul_right _ (by omega)
      have hexp : (k + 1) * g.hidden_size = k * g.hidden_size + g.hidden_size := by
        ring
      omega
    refine ⟨?_, ?_, ?_⟩
    · unfold softmaxTopicAxis
      rw [List.length_map, hviewlen]
    · intro row hrow
      rw [softmaxTopicAxis, List.mem_map] at hrow
      obtain ⟨r, hr, rfl⟩ := hrow
      rw [List.length_mapIdx]
      exact hviewrows r hr
    · intro h hh
      apply softmaxTopicAxis_col_sum
      · intro hnil
        rw [hnil] at hviewlen
        simp at hviewlen
        omega
      · intro row hrow
        rw [hviewrows row hrow]
        exact hh

/-- C2 (amended): on every `likelihood` call with term frequencies present
and topics enabled, the stored `theta` is replaced by
`softmax(mu + exp(log_sigma) * epsilon, dim=-1)`, where the fresh noise draw
`epsilon` of the fixed standard normal (threaded explicitly for `rsample()`)
is shared by — broadcast over — all batch rows; the stored result is
batch-indexed: a `(batch, topic_dim)` matrix with one topic-proportion row
per batch element, row `b` being the softmax of
`mu[b] + exp(log_sigma[b]) * epsilon`, not a single shared vector. -/
theorem claim2_theta_update_batch_indexed (M : TopicRNNModel)
    (input target : List (List Nat)) (tf : List (List ℝ)) (eps : List ℝ)
    (h : M.use_topics = true) :
    (∀ loss hid th, M.likelihood input none (some tf) target eps =
        Except.ok (loss, hid, th) →
      th = Theta.mat (thetaUpdate (muOf M tf) (logSigmaOf M tf) eps)) ∧
    (muOf M tf).length = tf.length ∧
    (logSigmaOf M tf).length = tf.length ∧
    (thetaUpdate (muOf M tf) (logSigmaOf M tf) eps).length = tf.length ∧
    ∀ b : Nat, (thetaUpdate (muOf M tf) (logSigmaOf M tf) eps)[b]? =
      ((muOf M tf)[b]?).bind fun mr => ((logSigmaOf M tf)[b]?).map fun lr =>
        softmaxList (List.zipWith (fun p e => p.1 + Real.exp p.2 * e)
          (mr.zip lr) eps) := by
  refine ⟨?_, ?_, ?_, ?_, ?_⟩
  · intro loss hid th hok
    rw [likelihood_some_tf_eq M input target tf eps h] at hok
    obtain ⟨fwd, _, hb⟩ := exceptMap_eq_ok hok
    exact (congrArg (fun p => p.2.2) hb).symm
  · simp [muOf, GNet.forward]
  · simp [logSigmaOf, GNet.forward]
  · simp [thetaUpdate, muOf, logSigmaOf, GNet.forward]
  · intro b
    rw [thetaUpdate, List.getElem?_zipWith]
    cases (muOf M tf)[b]? <;> cases (logSigmaOf M tf)[b]? <;> simp

/-- Concrete instance of the amended C2. -/
theorem claim2_witness :
    Mc.use_topics = true ∧
    (thetaUpdate (muOf Mc tfC) (logSigmaOf Mc tfC) [0, 0]).length = tfC.length ∧
    (muOf Mc tfC).length = tfC.length :=
  ⟨rfl,
   (claim2_theta_update_batch_indexed Mc [[1]] [[2]] tfC [0, 0] rfl).2.2.2.1,
   (claim2_theta_update_batch_indexed Mc [[1]] [[2]] tfC [0, 0] rfl).2.1⟩

/-- Helper: two-entry softmax heads agree exactly when the logit differences
agree. -/
theorem softmax2_head_eq_iff (a b c d : ℝ) :
    Real.exp a / (Real.exp a + Real.exp b) =
      Real.exp c / (Real.exp c + Real.exp d) ↔ a - b = c - d := by
  have hab : (0 : ℝ) < Real.exp a + Real.exp b := by positivity
  have hcd : (0 : ℝ) < Real.exp c + Real.exp d := by positivity
  rw [div_eq_div_iff hab.ne' hcd.ne']
  constructor
  · intro hcross
    have h2 : Real.exp a * Real.exp d = Real.exp c * Real.exp b := by
      ring_nf at hcross ⊢
      linarith
    rw [← Real.exp_add, ← Real.exp_add] at h2
    have h3 := Real.exp_eq_exp.mp h2
    linarith
  · intro hdiff
    have h4 : a + d = c + b := by linarith
    have h2 : Real.exp (a + d) = Real.exp (c + b) := by rw [h4]
    rw [Real.exp_add, Real.exp_add] at h2
    ring_nf at h2 ⊢
    linarith

/-- C2 counterexample: in the concrete model `Mc` with the term-frequency
batch `tfC` (whose two rows differ) and the concrete noise draw `[0, 0]`,
the stored `theta` after `likelihood` is a two-row matrix whose rows differ —
one topic-proportion vector per batch element, not a single shared vector
for the whole batch. -/
theorem claim2_counterexample :
    ((Mc.likelihood [[1]] none (some tfC) [[2]] [0, 0]).toOption.map fun t => t.2.2) =
      some (Theta.mat thetaC) ∧
    thetaC.getD 0 [] ≠ thetaC.getD 1 [] := by
  constructor
  · rfl
  · have hth : thetaC =
        [[Real.exp (Real.exp 1 / (Real.exp 1 + 1)) /
            (Real.exp (Real.exp 1 / (Real.exp 1 + 1)) + Real.exp (Real.exp 1 + 1)⁻¹),
          Real.exp (Real.exp 1 + 1)⁻¹ /
            (Real.exp (Real.exp 1 / (Real.exp 1 + 1)) + Real.exp (Real.exp 1 + 1)⁻¹)],
         [Real.exp (1 / 2) / (Real.exp (1 / 2) + Real.exp (1 / 2)),
          Real.exp (1 / 2) / (Real.exp (1 / 2) + Real.exp (1 / 2))]] := by
      unfold thetaC thetaUpdate muOf logSigmaOf softmaxList
      simp only [GNet.forward, GNet.model, linear, matVec, vecAdd, dot, reluVec,
        viewKH, pySlice, softmaxTopicAxis, Mc, gC, tfC, List.map_cons, List.map_nil,
        List.zipWith_cons_cons, List.zipWith_nil_right, List.zipWith_nil_left,
        List.sum_cons, List.sum_nil, List.mapIdx_cons, List.mapIdx_nil,
        List.range_succ, List.range_zero, List.getD_cons_zero, List.getD_cons_succ,
        List.zip_cons_cons, List.zip_nil_right, List.zip_nil_left]
      norm_num [Real.exp_zero]
    rw [hth]
    simp only [List.getD_cons_zero, List.getD_cons_succ]
    intro heq
    have hhead := congrArg (fun l : List ℝ => l.getD 0 0) heq
    simp only [List.getD_cons_zero] at hhead
    rw [softmax2_head_eq_iff] at hhead
    have hE : (1 : ℝ) < Real.exp 1 := Real.one_lt_exp_iff.mpr one_pos
    have hne : Real.exp 1 + 1 ≠ 0 := by positivity
    rw [sub_self] at hhead
    rw [sub_eq_zero] at hhead
    rw [div_eq_iff hne, inv_mul_cancel₀ hne] at hhead
    linarith

/-- Concrete instance of the amended C3: the batch-size-1 input produces a
3-D result of outer length 1. -/
theorem claim3_witness :
    (0 < g0.topic_dim) ∧
    (∀ tf ∈ [[(1 : ℝ)]], (g0.model tf).length = g0.topic_dim * g0.hidden_size) ∧
    (GNet.forward g0 [[(1 : ℝ)]]).length = [[(1 : ℝ)]].length :=
  ⟨by norm_num [g0],
   by
    intro tf htf
    simp only [List.mem_singleton] at htf
    subst htf
    rfl,
   (claim3_g_forward_shape g0 [[(1 : ℝ)]] (by norm_num [g0])
     (by
      intro tf htf
      simp only [List.mem_singleton] at htf
      subst htf
      rfl)).1⟩

end TopicRnn
